import Mathlib

/-!
Verification of the heat-method geodesic sample
(`apps/sample/trimesh_heatmethod/trimesh_heatmethod.h`).

The C++ code computes with `double`; the embedding models those values as
exact reals (`ℝ`).  The combinatorial mesh state (vertex count, faces,
face-face adjacency, vertex-face back-references) is kept separate from the
geometry so that the fan-walk control flow is decidable.  The file also
contains an IEEE-754-style extended value type `FP` (finite / ±∞ / NaN) used
to state the divergence sanitization property, which is about non-finite
values and hence invisible to the exact-real model.

The vcglib primitives used by the sample (`vcg::face::Pos` and its flips,
`VFStarVF`, `UpdateTopology`, `UpdateNormal::PerFaceNormalized`) are not part
of the sources under verification; definitions for them are modelled from the
specification and are marked as such in their doc comments.
-/

namespace HeatMethod

/-- Three-dimensional real vector modelling `Eigen::Vector3d` (exact-real
semantics for C++ `double`). -/
structure Vec3 where
  x : ℝ
  y : ℝ
  z : ℝ

def Vec3.zero : Vec3 := ⟨0, 0, 0⟩

def Vec3.add (a b : Vec3) : Vec3 := ⟨a.x + b.x, a.y + b.y, a.z + b.z⟩

def Vec3.sub (a b : Vec3) : Vec3 := ⟨a.x - b.x, a.y - b.y, a.z - b.z⟩

def Vec3.neg (a : Vec3) : Vec3 := ⟨-a.x, -a.y, -a.z⟩

def Vec3.dot (a b : Vec3) : ℝ := a.x * b.x + a.y * b.y + a.z * b.z

def Vec3.cross (a b : Vec3) : Vec3 :=
  ⟨a.y * b.z - a.z * b.y, a.z * b.x - a.x * b.z, a.x * b.y - a.y * b.x⟩

/-- Eigen's `.norm()`: the Euclidean norm. -/
noncomputable def Vec3.norm (a : Vec3) : ℝ := Real.sqrt (a.dot a)

/-- Componentwise division by a scalar (`v / c` resp. `v /= c` in Eigen). -/
noncomputable def Vec3.sdiv (a : Vec3) (c : ℝ) : Vec3 := ⟨a.x / c, a.y / c, a.z / c⟩

def Vec3.smul (c : ℝ) (a : Vec3) : Vec3 := ⟨c * a.x, c * a.y, c * a.z⟩

/-- A triple of values; used for the three corners of a face and for the three
per-edge adjacency slots of a face. -/
structure Tri (α : Type) where
  t0 : α
  t1 : α
  t2 : α
deriving DecidableEq

def Tri.get {α : Type} (t : Tri α) : Fin 3 → α := ![t.t0, t.t1, t.t2]

/-- Combinatorial mesh state: vertex count, faces (as vertex-index triples),
face-face adjacency (`FFp`/`FFi`, one slot per edge of each face) and the
per-vertex incident-face back-reference (`VFp`).  Edge `z` of a face joins its
corners `z` and `z+1` (mod 3). -/
structure Topo where
  nv : ℕ
  faces : List (Tri ℕ)
  ffF : List (Tri ℕ)
  ffZ : List (Tri (Fin 3))
  vfp : List (Option ℕ)
deriving DecidableEq

/-- Face lookup; out-of-range access (undefined behaviour in the C++) is
modelled by a default face. -/
def Topo.face (t : Topo) (fi : ℕ) : Tri ℕ := t.faces.getD fi ⟨0, 0, 0⟩

def Topo.corner (t : Topo) (fi : ℕ) (z : Fin 3) : ℕ := (t.face fi).get z

def Topo.ffp (t : Topo) (fi : ℕ) (z : Fin 3) : ℕ := (t.ffF.getD fi ⟨fi, fi, fi⟩).get z

def Topo.ffi (t : Topo) (fi : ℕ) (z : Fin 3) : Fin 3 := (t.ffZ.getD fi ⟨0, 1, 2⟩).get z

/-- The unordered endpoint pair of edge `z` of face `fi`, as a sorted pair. -/
def Topo.edgeEnds (t : Topo) (fi : ℕ) (z : Fin 3) : ℕ × ℕ :=
  (min (t.corner fi z) (t.corner fi (z + 1)), max (t.corner fi z) (t.corner fi (z + 1)))

/-- Modelled from the spec: the face-pose cursor of the fan walk, a
(face, edge, vertex) triple (`vcg::face::Pos`, not part of the verified
sources). -/
structure Pose where
  f : ℕ
  z : Fin 3
  v : ℕ
deriving DecidableEq

/-- Modelled from the spec: flip the current edge's other endpoint
(`Pos::FlipV`).  On a pose whose vertex is not an endpoint of the current
edge (unreachable on well-formed input) the result defaults to corner `z`. -/
def flipV (t : Topo) (p : Pose) : Pose :=
  { p with v := if p.v = t.corner p.f p.z then t.corner p.f (p.z + 1) else t.corner p.f p.z }

/-- Modelled from the spec: flip to the other edge of the current face at the
fixed vertex (`Pos::FlipE`). -/
def flipE (t : Topo) (p : Pose) : Pose :=
  { p with z :=
      if p.v = t.corner p.f p.z then p.z + 2
      else if p.v = t.corner p.f (p.z + 1) then p.z + 1
      else p.z }

/-- Modelled from the spec: flip across the current edge to the adjacent face
(`Pos::FlipF`), following the stored face-face adjacency. -/
def flipF (t : Topo) (p : Pose) : Pose :=
  { p with f := t.ffp p.f p.z, z := t.ffi p.f p.z }

/-- Modelled from the spec: the pose a `vcg::face::Pos` is constructed on from
a face and one of its vertices; the initial edge is the edge whose first
endpoint is the vertex (any edge containing the vertex starts a closed fan
walk at an equivalent point). -/
def initPose (t : Topo) (fi : ℕ) (v : ℕ) : Pose :=
  ⟨fi, if t.corner fi 0 = v then 0 else if t.corner fi 1 = v then 1 else 2, v⟩

/-- One iteration body of the fan walk of `buildCotanMatrix` (lines 130-141):
the exact move sequence of the source, returning the final pose together with
the vertices `vo` (edge's other endpoint), `vl` (left opposite) and `vr`
(right opposite) read along the way. -/
def walkBody (t : Topo) (p : Pose) : Pose × ℕ × ℕ × ℕ :=
  let p1 := flipV t p
  let vo := p1.v
  let p2 := flipV t (flipE t p1)
  let vl := p2.v
  let p3 := flipE t (flipV t p2)
  let p4 := flipV t (flipE t (flipF t p3))
  let vr := p4.v
  let p6 := flipV t (flipF t (flipE t (flipV t p4)))
  (p6, vo, vl, vr)

/-- The move to the next edge of the fan (line 156: `FlipF(); FlipE()`). -/
def advanceStep (t : Topo) (p : Pose) : Pose := flipE t (flipF t p)

/-- The `do { ... } while (pos != start)` loop of `buildCotanMatrix`, with an
explicit fuel parameter embedding the (unbounded) C++ loop: `none` means the
loop has not returned to `start` within `fuel` iterations.  Each iteration
records the `(vo, vl, vr)` triple the source reads. -/
def fanLoop (t : Topo) (start : Pose) : ℕ → Pose → Option (List (ℕ × ℕ × ℕ))
  | 0, _ => none
  | fuel + 1, p =>
    let b := walkBody t p
    let p' := advanceStep t b.1
    if p' = start then some [b.2]
    else
      match fanLoop t start fuel p' with
      | none => none
      | some rest => some (b.2 :: rest)

/-- Fuel sufficient to capture termination exactly: a terminating walk revisits
its start within the number of distinct reachable poses, which is bounded by
`faces × 3 edges × (corner values or the start vertex)`. -/
def defaultFuel (t : Topo) : ℕ := 3 * t.faces.length * (3 * t.faces.length + t.nv + 1) + 2

/-- The fan walk of `buildCotanMatrix` around vertex `v` with explicit fuel;
`none` on a missing incident face (null `VFp`, undefined behaviour in C++) or
when the walk does not return to its start within `fuel` iterations. -/
def fanVisitFuel (t : Topo) (fuel : ℕ) (v : ℕ) : Option (List (ℕ × ℕ × ℕ)) :=
  match t.vfp.getD v none with
  | none => none
  | some fi => fanLoop t (initPose t fi v) fuel (initPose t fi v)

/-- The fan walk with the default fuel, as run by `buildCotanMatrix`. -/
def fanVisit (t : Topo) (v : ℕ) : Option (List (ℕ × ℕ × ℕ)) :=
  fanVisitFuel t (defaultFuel t) v

/-- The fan walk around `v` halts (the C++ `do`-`while` loop returns to its
start pose after finitely many iterations). -/
def fanWalkHalts (t : Topo) (v : ℕ) : Prop := ∃ fuel, (fanVisitFuel t fuel v).isSome

/-- Full mesh state: combinatorial part plus positions, per-face normals and
the per-face and per-vertex scalar quality fields. -/
structure Mesh where
  topo : Topo
  pos : List Vec3
  normals : List Vec3
  faceQ : List ℝ
  vertQ : List ℝ

/-- Vertex position lookup (`->P()`); out-of-range access defaults to zero. -/
def Mesh.p (m : Mesh) (v : ℕ) : Vec3 := m.pos.getD v Vec3.zero

/-- Modelled from the spec: the full incident-face star of a vertex with the
vertex's local index in each face (`vcg::face::VFStarVF`, not part of the
verified sources; the spec only requires that each vertex resolve to its full
incident-face star). -/
def vfStar (t : Topo) (v : ℕ) : List (ℕ × Fin 3) :=
  (List.range t.faces.length).flatMap fun fi =>
    ((List.finRange 3).filter fun j => t.corner fi j = v).map fun j => (fi, j)

/-- Modelled from the spec: `UpdateTopology::VertexFace` (not part of the
verified sources) writes the vertex-face adjacency; the back-reference becomes
the first face containing the vertex. -/
def updateVertexFace (m : Mesh) : Mesh :=
  { m with topo := { m.topo with
      vfp := (List.range m.topo.nv).map fun v =>
        (List.range m.topo.faces.length).find? fun fi =>
          decide (∃ j : Fin 3, m.topo.corner fi j = v) } }

/-- Modelled from the spec: `UpdateTopology::FaceFace` (not part of the
verified sources) writes, for each edge of each face, the other face sharing
that unordered edge (itself when none exists, vcg's border convention). -/
def updateFaceFace (m : Mesh) : Mesh :=
  let t := m.topo
  let slot : ℕ → Fin 3 → ℕ × Fin 3 := fun fi z =>
    match (List.range t.faces.length).findSome? (fun gi =>
      if gi = fi then none
      else (List.finRange 3).findSome? fun w =>
        if t.edgeEnds gi w = t.edgeEnds fi z then some (gi, w) else none) with
    | some gw => gw
    | none => (fi, z)
  { m with topo := { t with
      ffF := (List.range t.faces.length).map fun fi =>
        ⟨(slot fi 0).1, (slot fi 1).1, (slot fi 2).1⟩,
      ffZ := (List.range t.faces.length).map fun fi =>
        ⟨(slot fi 0).2, (slot fi 1).2, (slot fi 2).2⟩ } }

/-- Modelled from the spec: `UpdateNormal::PerFaceNormalized` (not part of the
verified sources) writes each face's unit normal, the normalized
counter-clockwise cross product of its two edge vectors. -/
noncomputable def updateNormals (m : Mesh) : Mesh :=
  { m with normals := m.topo.faces.map fun f =>
      let c := ((m.p (f.get 1)).sub (m.p (f.get 0))).cross ((m.p (f.get 2)).sub (m.p (f.get 0)))
      c.sdiv c.norm }

/-- The topology/normal preparation performed at the top of both entry points
(lines 317-319 resp. 353-355). -/
noncomputable def prepareMesh (m : Mesh) : Mesh :=
  updateNormals (updateFaceFace (updateVertexFace m))

/-- The `cotan` helper (line 75): `dot(v0, v1) / |cross(v0, v1)|`. -/
noncomputable def cotan (v0 v1 : Vec3) : ℝ := v0.dot v1 / (v0.cross v1).norm

/-- Heron's formula as computed by `buildMassMatrix` (lines 85-92). -/
noncomputable def heronArea (p0 p1 p2 : Vec3) : ℝ :=
  let e0 := (p1.sub p0).norm
  let e1 := (p2.sub p0).norm
  let e2 := (p2.sub p1).norm
  let s := (e0 + e1 + e2) / 2
  Real.sqrt (s * (s - e0) * (s - e1) * (s - e2))

/-- The face areas written into the per-face quality field by the first loop
of `buildMassMatrix` (lines 83-96). -/
noncomputable def faceAreas (m : Mesh) : List ℝ :=
  m.topo.faces.map fun f => heronArea (m.p (f.get 0)) (m.p (f.get 1)) (m.p (f.get 2))

/-- `buildMassMatrix` (lines 81-113): stores each face's Heron area in the
face quality field, then fills the diagonal with one third of the summed
incident-face areas; all other entries of the (initially zero) sparse matrix
stay zero. -/
noncomputable def buildMassMatrix (m : Mesh) : Mesh × Matrix (Fin m.topo.nv) (Fin m.topo.nv) ℝ :=
  let m' := { m with faceQ := faceAreas m }
  (m', Matrix.of fun i j =>
    if i = j then ((vfStar m.topo (i : ℕ)).map fun s => m'.faceQ.getD s.1 0).sum / 3 else 0)

/-- The two cotangents and the averaging of one fan-walk iteration
(lines 144-153), from the positions of the loop vertex `vp` and the vertices
`vo`, `vl`, `vr` read by the walk. -/
noncomputable def cotanPair (m : Mesh) (vp vo vl vr : ℕ) : ℝ :=
  let elf := (m.p vo).sub (m.p vl)
  let eln := (m.p vp).sub (m.p vl)
  let erf := (m.p vp).sub (m.p vr)
  let ern := (m.p vo).sub (m.p vr)
  (cotan elf eln + cotan ern erf) / 2

/-- The row of off-diagonal writes produced by one vertex's fan walk:
`coeffRef(id vp, id vo) = (cotan_l + cotan_r)/2` for each visited edge, later
writes overwriting earlier ones; a write to an out-of-range column (undefined
behaviour in C++) is dropped. -/
noncomputable def cotanRow (m : Mesh) (i : ℕ) (ts : List (ℕ × ℕ × ℕ)) :
    Fin m.topo.nv → ℝ :=
  ts.foldl (fun row s =>
    if h : s.1 < m.topo.nv then
      Function.update row ⟨s.1, h⟩ (cotanPair m i s.1 s.2.1 s.2.2)
    else row)
    (fun _ => 0)

/-- The matrix state after all fan walks of `buildCotanMatrix` (lines
124-158), before the diagonal pass; `none` when some vertex's walk does not
terminate (the C++ loops forever) or has no incident face. -/
noncomputable def cotanPre (m : Mesh) :
    Option (Matrix (Fin m.topo.nv) (Fin m.topo.nv) ℝ) :=
  if h : ∀ i : Fin m.topo.nv, (fanVisit m.topo (i : ℕ)).isSome then
    some (Matrix.of fun i j => cotanRow m (i : ℕ) ((fanVisit m.topo (i : ℕ)).get (h i)) j)
  else none

/-- The diagonal pass of `buildCotanMatrix` (lines 161-163): each diagonal
entry becomes the negated sum of its row of the post-walk matrix. -/
noncomputable def cotanFinalize {n : ℕ} (P : Matrix (Fin n) (Fin n) ℝ) :
    Matrix (Fin n) (Fin n) ℝ :=
  Matrix.of fun i j => if i = j then -(∑ k, P i k) else P i j

/-- `buildCotanMatrix` (lines 116-165). -/
noncomputable def buildCotanMatrix (m : Mesh) :
    Option (Matrix (Fin m.topo.nv) (Fin m.topo.nv) ℝ) :=
  (cotanPre m).map cotanFinalize

/-- The semi-perimeter `(e0 + e1 + e2) / 2` accumulated per face by
`computeAverageEdgeLength` (lines 171-181). -/
noncomputable def faceSemiPerimeter (m : Mesh) (f : Tri ℕ) : ℝ :=
  let p0 := m.p (f.get 0)
  let p1 := m.p (f.get 1)
  let p2 := m.p (f.get 2)
  (((p1.sub p0).norm + (p2.sub p0).norm + (p2.sub p1).norm)) / 2

/-- `computeAverageEdgeLength` (lines 168-183).  The C++ divisor is
`3/2 * mesh.FN()` where `3`, `2` and `FN()` are integers, so `3/2` is the
integer division `1` and the divisor equals the face count. -/
noncomputable def computeAverageEdgeLength (m : Mesh) : ℝ :=
  (m.topo.faces.map (faceSemiPerimeter m)).sum /
    ((3 / 2 * (m.topo.faces.length : ℤ) : ℤ) : ℝ)

/-- The average edge length as the specification describes it: the summed
semi-perimeters divided by `1.5 ×` the face count. -/
noncomputable def specAverageEdgeLength (m : Mesh) : ℝ :=
  (m.topo.faces.map (faceSemiPerimeter m)).sum / ((1.5 : ℝ) * (m.topo.faces.length : ℝ))

/-- The edge of face `fi` opposite local corner `idx`, directed as the source
writes it (index 0 ↦ `p2 - p1`, index 1 ↦ `p0 - p2`, index 2 ↦ `p1 - p0`),
which is `corner (idx+2) - corner (idx+1)` uniformly. -/
def oppositeEdge (m : Mesh) (fi : ℕ) (idx : Fin 3) : Vec3 :=
  (m.p (m.topo.corner fi (idx + 2))).sub (m.p (m.topo.corner fi (idx + 1)))

/-- One face's contribution inside `computeVertexGradient` (lines 202-225):
the unit edge vector opposite the vertex's local index, crossed from the left
by the face's unit normal, scaled by `heat[i] / (2 * faceArea)` with the face
area read from the face quality field. -/
noncomputable def gradientTerm (m : Mesh) (heat : ℝ) (fi : ℕ) (idx : Fin 3) : Vec3 :=
  let p0 := m.p (m.topo.corner fi 0)
  let p1 := m.p (m.topo.corner fi 1)
  let p2 := m.p (m.topo.corner fi 2)
  let e : Vec3 :=
    if idx = 0 then p2.sub p1
    else if idx = 1 then p0.sub p2
    else p1.sub p0
  let e' := e.sdiv e.norm
  let nrm := m.normals.getD fi Vec3.zero
  let n' := nrm.sdiv nrm.norm
  let g := n'.cross e'
  g.smul (heat / (2 * m.faceQ.getD fi 0))

/-- `computeVertexGradient` (lines 186-229): per vertex, the accumulated
contributions over the vertex's incident-face star. -/
noncomputable def computeVertexGradient (m : Mesh) (heat : Fin m.topo.nv → ℝ) :
    Fin m.topo.nv → Vec3 :=
  fun i => (vfStar m.topo (i : ℕ)).foldl
    (fun acc s => acc.add (gradientTerm m (heat i) s.1 s.2)) Vec3.zero

/-- `normalizeVectorField` (lines 231-240): divides each row by its norm. -/
noncomputable def normalizeVectorField (m : Mesh) (field : Fin m.topo.nv → Vec3) :
    Fin m.topo.nv → Vec3 :=
  fun i => (field i).sdiv (field i).norm

/-- One face's contribution inside `computeVertexDivergence` (lines 255-282):
left/right/opposite edges by local index, cotangents before normalization,
then `(cotl * (er̂ · field) + cotr * (el̂ · field)) / 2`. -/
noncomputable def divergenceTerm (m : Mesh) (field : Vec3) (fi : ℕ) (idx : Fin 3) : ℝ :=
  let p0 := m.p (m.topo.corner fi 0)
  let p1 := m.p (m.topo.corner fi 1)
  let p2 := m.p (m.topo.corner fi 2)
  let el : Vec3 :=
    if idx = 0 then p2.sub p0 else if idx = 1 then p0.sub p1 else p1.sub p2
  let er : Vec3 :=
    if idx = 0 then p1.sub p0 else if idx = 1 then p2.sub p1 else p0.sub p2
  let eo : Vec3 :=
    if idx = 0 then p1.sub p2 else if idx = 1 then p0.sub p2 else p0.sub p1
  let cotl := cotan el eo
  let cotr := cotan er eo
  let el' := el.sdiv el.norm
  let er' := er.sdiv er.norm
  (cotl * er'.dot field + cotr * el'.dot field) / 2

/-- The per-vertex accumulation loop of `computeVertexDivergence`
(lines 247-284), before the sanitization pass.  Over exact reals the
`isnan`/`isinf` sanitization of lines 286-290 is the identity; the `FP` model
below carries the actual check. -/
noncomputable def computeVertexDivergence (m : Mesh) (field : Fin m.topo.nv → Vec3) :
    Fin m.topo.nv → ℝ :=
  fun i => (vfStar m.topo (i : ℕ)).foldl
    (fun acc s => acc + divergenceTerm m (field i) s.1 s.2) 0

/-- The lower-triangle self-adjoint view Eigen's `SimplicialLLT` takes of its
input matrix. -/
def lowerSelfAdjoint {n : ℕ} (A : Matrix (Fin n) (Fin n) ℝ) :
    Matrix (Fin n) (Fin n) ℝ :=
  Matrix.of fun i j => if (j : ℕ) ≤ (i : ℕ) then A i j else A j i

open Classical in
/-- Exact-arithmetic model of `Eigen::SimplicialLLT(A).solve(b)`: the Cholesky
factorization of the lower self-adjoint view exists exactly when that view is
symmetric positive-definite, in which case the solve returns the exact
solution; otherwise the factorization reports failure (the source never
checks `info()`, so failure is modelled as an absent result). -/
noncomputable def lltSolve {n : ℕ} (A : Matrix (Fin n) (Fin n) ℝ) (b : Fin n → ℝ) :
    Option (Fin n → ℝ) :=
  if (lowerSelfAdjoint A).PosDef then some ((lowerSelfAdjoint A)⁻¹.mulVec b) else none

/-- The heat-flow system `mass - timestep * cotanOperator` (line 330). -/
noncomputable def heatSystem {n : ℕ} (mass L : Matrix (Fin n) (Fin n) ℝ)
    (timestep : ℝ) : Matrix (Fin n) (Fin n) ℝ :=
  mass - timestep • L

/-- The regularized geodesic system `cotanOperator + 1e-6 * Identity`
(line 343) of the non-verbose entry point. -/
noncomputable def geodesicSystem {n : ℕ} (L : Matrix (Fin n) (Fin n) ℝ) :
    Matrix (Fin n) (Fin n) ℝ :=
  L + (1e-6 : ℝ) • (1 : Matrix (Fin n) (Fin n) ℝ)

/-- `computeHeatMethodGeodesic` (lines 316-349): topology/normal preparation,
mass and cotangent matrices, timestep from the average edge length, heat-flow
solve, vertex gradient, normalization of the negated gradient, divergence, and
the regularized geodesic solve.  The returned pair is the mutated mesh state
and the distance vector (absent when a fan walk does not terminate or a
factorization fails). -/
noncomputable def computeHeatMethodGeodesic (m : Mesh) (init : Fin m.topo.nv → ℝ)
    (mult : ℝ) : Mesh × Option (Fin m.topo.nv → ℝ) :=
  let m1 := prepareMesh m
  let mm := buildMassMatrix m1
  let m2 := mm.1
  let result : Option (Fin m.topo.nv → ℝ) :=
    (buildCotanMatrix m2).bind fun L =>
      let avg := computeAverageEdgeLength m2
      let timestep := mult * avg * avg
      (lltSolve (heatSystem mm.2 L timestep) init).bind fun heat =>
        let grad := computeVertexGradient m2 heat
        let nrmF := normalizeVectorField m2 fun i => (grad i).neg
        let dvg := computeVertexDivergence m2 nrmF
        lltSolve (geodesicSystem L) dvg
  (m2, result)

/-- `computeHeatMethodGeodesicVerbose` (lines 352-401): the same stages with
diagnostic printing, except that the second factorization is taken of
`cotanOperator` itself (line 395), without the `1e-6 * Identity` regularizer
of the non-verbose entry point. -/
noncomputable def computeHeatMethodGeodesicVerbose (m : Mesh) (init : Fin m.topo.nv → ℝ)
    (mult : ℝ) : Mesh × Option (Fin m.topo.nv → ℝ) :=
  let m1 := prepareMesh m
  let mm := buildMassMatrix m1
  let m2 := mm.1
  let result : Option (Fin m.topo.nv → ℝ) :=
    (buildCotanMatrix m2).bind fun L =>
      let avg := computeAverageEdgeLength m2
      let timestep := mult * avg * avg
      (lltSolve (heatSystem mm.2 L timestep) init).bind fun heat =>
        let grad := computeVertexGradient m2 heat
        let nrmF := normalizeVectorField m2 fun i => (grad i).neg
        let dvg := computeVertexDivergence m2 nrmF
        lltSolve L dvg
  (m2, result)

/-- The composed pipeline exactly as the specification words it: build the
mass matrix and the cotangent Laplacian, set `t = m × avgEdgeLength²`, solve
`(M − t·L)·heat = init` with the SPD factorization, take the per-vertex
gradient of the heat, normalize the negated gradient field per vertex, take
its per-vertex divergence, and return the solution of
`(L + 1e-6·I)·distance = divergence`. -/
noncomputable def specPipeline (m : Mesh) (init : Fin m.topo.nv → ℝ) (mult : ℝ) :
    Option (Fin m.topo.nv → ℝ) :=
  let mp := prepareMesh m
  let mm := buildMassMatrix mp
  let mass : Matrix (Fin m.topo.nv) (Fin m.topo.nv) ℝ := mm.2
  (buildCotanMatrix mm.1).bind fun (L : Matrix (Fin m.topo.nv) (Fin m.topo.nv) ℝ) =>
    (lltSolve (mass - (mult * computeAverageEdgeLength mm.1 ^ 2) • L) init).bind fun heat =>
      lltSolve (L + (1e-6 : ℝ) • 1)
        (computeVertexDivergence mm.1
          (normalizeVectorField mm.1 fun i => ((computeVertexGradient mm.1 heat) i).neg))

/-- One face's gradient contribution exactly as the claim words it: the cross
product of the unit edge vector opposite the vertex's face-local index with
the face's unit normal, scaled by `heat[v] / (2 × faceArea)` with the face
area read from the face quality field. -/
noncomputable def claimGradientTerm (m : Mesh) (h : ℝ) (fi : ℕ) (idx : Fin 3) : Vec3 :=
  let e := oppositeEdge m fi idx
  let e' := e.sdiv e.norm
  let nrm := m.normals.getD fi Vec3.zero
  let n' := nrm.sdiv nrm.norm
  (e'.cross n').smul (h / (2 * m.faceQ.getD fi 0))

/-- The gradient-row formula exactly as the claim words it: the sum of the
claim's per-face contributions over the vertex's incident-face star. -/
noncomputable def claimGradientRow (m : Mesh) (heat : Fin m.topo.nv → ℝ)
    (i : Fin m.topo.nv) : Vec3 :=
  (vfStar m.topo (i : ℕ)).foldl (fun acc s =>
    acc.add (claimGradientTerm m (heat i) s.1 s.2)) Vec3.zero

/-- One face's gradient contribution with the cross product in the order the
source takes it, unit normal × unit edge. -/
noncomputable def amendedGradientTerm (m : Mesh) (h : ℝ) (fi : ℕ) (idx : Fin 3) : Vec3 :=
  let e := oppositeEdge m fi idx
  let e' := e.sdiv e.norm
  let nrm := m.normals.getD fi Vec3.zero
  let n' := nrm.sdiv nrm.norm
  (n'.cross e').smul (h / (2 * m.faceQ.getD fi 0))

/-- The amended gradient-row formula: the claim's sum with the cross product
reversed to the source's order. -/
noncomputable def amendedGradientRow (m : Mesh) (heat : Fin m.topo.nv → ℝ)
    (i : Fin m.topo.nv) : Vec3 :=
  (vfStar m.topo (i : ℕ)).foldl (fun acc s =>
    acc.add (amendedGradientTerm m (heat i) s.1 s.2)) Vec3.zero

/-- One third of the summed Heron areas of the faces incident to a vertex, as
the claim words the mass-matrix diagonal. -/
noncomputable def specMassEntry (m : Mesh) (v : ℕ) : ℝ :=
  (∑ fi ∈ Finset.range m.topo.faces.length,
    if ∃ j : Fin 3, m.topo.corner fi j = v then (faceAreas m).getD fi 0 else 0) / 3

/-- The total mesh surface area: the sum of all faces' Heron areas. -/
noncomputable def totalFaceArea (m : Mesh) : ℝ := (faceAreas m).sum

/-- IEEE-754-style extended value modelling a C++ `double` including the
non-finite values: a finite value carrying an exact real, the two infinities,
or NaN.  Used to state the divergence sanitization property. -/
inductive FP
  | fin (x : ℝ)
  | pinf
  | ninf
  | nan

/-- The `std::isnan` test. -/
def FP.isNaN : FP → Bool
  | nan => true
  | _ => false

/-- The `std::isinf` test. -/
def FP.isInf : FP → Bool
  | pinf => true
  | ninf => true
  | _ => false

/-- A value that is neither NaN nor infinite. -/
def FP.isFinite : FP → Bool
  | fin _ => true
  | _ => false

def FP.negFP : FP → FP
  | fin x => fin (-x)
  | pinf => ninf
  | ninf => pinf
  | nan => nan

noncomputable def FP.addFP : FP → FP → FP
  | fin a, fin b => fin (a + b)
  | nan, _ => nan
  | _, nan => nan
  | pinf, ninf => nan
  | ninf, pinf => nan
  | pinf, _ => pinf
  | _, pinf => pinf
  | ninf, _ => ninf
  | _, ninf => ninf

noncomputable def FP.subFP (a b : FP) : FP := a.addFP b.negFP

open Classical in
noncomputable def FP.mulFP : FP → FP → FP
  | fin a, fin b => fin (a * b)
  | nan, _ => nan
  | _, nan => nan
  | pinf, pinf => pinf
  | pinf, ninf => ninf
  | ninf, pinf => ninf
  | ninf, ninf => pinf
  | fin a, pinf => if 0 < a then pinf else if a < 0 then ninf else nan
  | pinf, fin a => if 0 < a then pinf else if a < 0 then ninf else nan
  | fin a, ninf => if 0 < a then ninf else if a < 0 then pinf else nan
  | ninf, fin a => if 0 < a then ninf else if a < 0 then pinf else nan

open Classical in
/-- IEEE division; a zero denominator is treated as `+0` (the denominators
reaching this model arise as Euclidean norms, which are non-negative). -/
noncomputable def FP.divFP : FP → FP → FP
  | fin a, fin b =>
      if b = 0 then (if a = 0 then nan else if 0 < a then pinf else ninf)
      else fin (a / b)
  | nan, _ => nan
  | _, nan => nan
  | fin _, pinf => fin 0
  | fin _, ninf => fin 0
  | pinf, fin b => if 0 ≤ b then pinf else ninf
  | ninf, fin b => if 0 ≤ b then ninf else pinf
  | pinf, pinf => nan
  | pinf, ninf => nan
  | ninf, pinf => nan
  | ninf, ninf => nan

open Classical in
noncomputable def FP.sqrtFP : FP → FP
  | fin a => if a < 0 then nan else fin (Real.sqrt a)
  | pinf => pinf
  | ninf => nan
  | nan => nan

/-- Three-dimensional vector of extended values. -/
structure FPV where
  x : FP
  y : FP
  z : FP

def FPV.ofVec3 (v : Vec3) : FPV := ⟨FP.fin v.x, FP.fin v.y, FP.fin v.z⟩

noncomputable def FPV.sub (a b : FPV) : FPV := ⟨a.x.subFP b.x, a.y.subFP b.y, a.z.subFP b.z⟩

noncomputable def FPV.dot (a b : FPV) : FP :=
  ((a.x.mulFP b.x).addFP (a.y.mulFP b.y)).addFP (a.z.mulFP b.z)

noncomputable def FPV.cross (a b : FPV) : FPV :=
  ⟨(a.y.mulFP b.z).subFP (a.z.mulFP b.y),
   (a.z.mulFP b.x).subFP (a.x.mulFP b.z),
   (a.x.mulFP b.y).subFP (a.y.mulFP b.x)⟩

noncomputable def FPV.normFP (a : FPV) : FP := (a.dot a).sqrtFP

noncomputable def FPV.sdiv (a : FPV) (c : FP) : FPV := ⟨a.x.divFP c, a.y.divFP c, a.z.divFP c⟩

/-- The `cotan` helper over extended values. -/
noncomputable def cotanFP (v0 v1 : FPV) : FP := (v0.dot v1).divFP (v0.cross v1).normFP

/-- One face's contribution inside `computeVertexDivergence` (lines 255-282)
over extended values. -/
noncomputable def divergenceTermFP (m : Mesh) (field : FPV) (fi : ℕ) (idx : Fin 3) : FP :=
  let p0 := FPV.ofVec3 (m.p (m.topo.corner fi 0))
  let p1 := FPV.ofVec3 (m.p (m.topo.corner fi 1))
  let p2 := FPV.ofVec3 (m.p (m.topo.corner fi 2))
  let el : FPV :=
    if idx = 0 then p2.sub p0 else if idx = 1 then p0.sub p1 else p1.sub p2
  let er : FPV :=
    if idx = 0 then p1.sub p0 else if idx = 1 then p2.sub p1 else p0.sub p2
  let eo : FPV :=
    if idx = 0 then p1.sub p2 else if idx = 1 then p0.sub p2 else p0.sub p1
  let cotl := cotanFP el eo
  let cotr := cotanFP er eo
  let el' := el.sdiv el.normFP
  let er' := er.sdiv er.normFP
  ((cotl.mulFP (er'.dot field)).addFP (cotr.mulFP (el'.dot field))).divFP (FP.fin 2)

/-- The sanitization of lines 286-290: a NaN or infinite accumulated value is
replaced by zero. -/
noncomputable def sanitizeFP (a : FP) : FP := if a.isNaN || a.isInf then FP.fin 0 else a

/-- `computeVertexDivergence` (lines 243-292) over extended values: the
accumulation over each vertex's incident-face star followed by the
NaN/infinity sanitization pass. -/
noncomputable def computeVertexDivergenceFP (m : Mesh) (field : Fin m.topo.nv → FPV) :
    Fin m.topo.nv → FP :=
  fun i => sanitizeFP ((vfStar m.topo (i : ℕ)).foldl
    (fun acc s => acc.addFP (divergenceTermFP m (field i) s.1 s.2)) (FP.fin 0))

/-- Faces have in-range and pairwise distinct corners. -/
def facesWellFormed (t : Topo) : Prop :=
  ∀ f ∈ t.faces,
    (f.t0 < t.nv ∧ f.t1 < t.nv ∧ f.t2 < t.nv) ∧
    (f.t0 ≠ f.t1 ∧ f.t1 ≠ f.t2 ∧ f.t0 ≠ f.t2)

/-- The face-face adjacency is a proper (manifold-style) gluing: the right
length, in-range targets, involutive, and matching unordered edge
endpoints.  A border edge pointing back to itself satisfies all of this. -/
def ffWellFormed (t : Topo) : Prop :=
  t.ffF.length = t.faces.length ∧ t.ffZ.length = t.faces.length ∧
  ∀ fi < t.faces.length, ∀ z : Fin 3,
    t.ffp fi z < t.faces.length ∧
    t.ffp (t.ffp fi z) (t.ffi fi z) = fi ∧
    t.ffi (t.ffp fi z) (t.ffi fi z) = z ∧
    t.edgeEnds (t.ffp fi z) (t.ffi fi z) = t.edgeEnds fi z

/-- Every vertex has an incident-face back-reference to an in-range face that
contains it. -/
def vfpWellFormed (t : Topo) : Prop :=
  t.vfp.length = t.nv ∧
  ∀ v < t.nv, ∃ fi < t.faces.length,
    t.vfp.getD v none = some fi ∧ ∃ j : Fin 3, t.corner fi j = v

/-- Valid closed-fan adjacency: well-formed faces, a proper face-face gluing
and valid vertex-face back-references. -/
def validTopo (t : Topo) : Prop :=
  facesWellFormed t ∧ ffWellFormed t ∧ vfpWellFormed t

instance (t : Topo) : Decidable (facesWellFormed t) := by
  unfold facesWellFormed
  infer_instance

instance (t : Topo) : Decidable (ffWellFormed t) := by
  unfold ffWellFormed
  infer_instance

instance (t : Topo) : Decidable (vfpWellFormed t) := by
  unfold vfpWellFormed
  infer_instance

instance (t : Topo) : Decidable (validTopo t) := by
  unfold validTopo
  infer_instance

/-- The fan-walk cursor invariant: the pose's face is in range and its vertex
is an endpoint of its current edge. -/
def PoseInv (t : Topo) (p : Pose) : Prop :=
  p.f < t.faces.length ∧ (p.v = t.corner p.f p.z ∨ p.v = t.corner p.f (p.z + 1))

/-- The doubled triangle: two faces over the same three vertices with opposite
orientations, a combinatorially closed manifold in which every vertex's fan
consists of the two faces.  Geometrically realized below as a right triangle
in the plane. -/
def pillowTopo : Topo :=
  ⟨3, [⟨0, 1, 2⟩, ⟨0, 2, 1⟩], [⟨1, 1, 1⟩, ⟨0, 0, 0⟩], [⟨2, 1, 0⟩, ⟨2, 1, 0⟩],
   [some 0, some 0, some 0]⟩

/-- The doubled right triangle with legs 1 on the coordinate axes; face
normals, face areas (1/2 each) and a sentinel vertex quality of 7 are
pre-populated as a pipeline run would leave them. -/
noncomputable def pillowMesh : Mesh :=
  ⟨pillowTopo,
   [⟨0, 0, 0⟩, ⟨1, 0, 0⟩, ⟨0, 1, 0⟩],
   [⟨0, 0, 1⟩, ⟨0, 0, -1⟩],
   [1 / 2, 1 / 2],
   [7, 7, 7]⟩

/-- The cotangent Laplacian of the doubled right triangle. -/
noncomputable def pillowL : Matrix (Fin 3) (Fin 3) ℝ :=
  !![-2, 1, 1; 1, -1, 0; 1, 0, -1]

/-- The mass matrix produced for the doubled right triangle, with its index
type stated concretely. -/
noncomputable def pillowMass : Matrix (Fin 3) (Fin 3) ℝ := (buildMassMatrix pillowMesh).2

/-- A malformed topology: two duplicate faces whose face-face slots are glued
inconsistently (not involutive), so that vertex 0's fan walk leaves its start
face and then cycles between two poses of face 1 forever. -/
def badTopo : Topo :=
  ⟨3, [⟨0, 1, 2⟩, ⟨0, 1, 2⟩], [⟨1, 0, 0⟩, ⟨1, 1, 1⟩], [⟨0, 1, 2⟩, ⟨0, 1, 2⟩],
   [some 0, some 0, some 0]⟩

/-- A single 3-4-5 right triangle with integer coordinates. -/
noncomputable def tri345Mesh : Mesh :=
  ⟨⟨3, [⟨0, 1, 2⟩], [⟨0, 0, 0⟩], [⟨0, 1, 2⟩], [some 0, some 0, some 0]⟩,
   [⟨0, 0, 0⟩, ⟨3, 0, 0⟩, ⟨0, 4, 0⟩],
   [⟨0, 0, 1⟩],
   [6],
   [0, 0, 0]⟩

/-! ### Helper lemmas -/

theorem sqrt_of_sq (a b : ℝ) (hb : 0 ≤ b) (h : b ^ 2 = a) : Real.sqrt a = b := by
  rw [← h, Real.sqrt_sq hb]

theorem sanitizeFP_isFinite (a : FP) : (sanitizeFP a).isFinite = true := by
  cases a <;> simp [sanitizeFP, FP.isNaN, FP.isInf, FP.isFinite]

theorem pillow_fan0 : fanVisit pillowTopo 0 = some [(1, 2, 2), (2, 1, 1)] := by decide

theorem pillow_fan1 : fanVisit pillowTopo 1 = some [(2, 0, 0), (0, 2, 2)] := by decide

theorem pillow_fan2 : fanVisit pillowTopo 2 = some [(0, 1, 1), (1, 0, 0)] := by decide

theorem pillow_cp011 : cotanPair pillowMesh 0 1 2 2 = 1 := by
  simp only [cotanPair, cotan, Mesh.p, pillowMesh, Vec3.sub, Vec3.dot, Vec3.cross, Vec3.norm]
  norm_num [List.getD, Real.sqrt_one]

theorem pillow_cp022 : cotanPair pillowMesh 0 2 1 1 = 1 := by
  simp only [cotanPair, cotan, Mesh.p, pillowMesh, Vec3.sub, Vec3.dot, Vec3.cross, Vec3.norm]
  norm_num [List.getD, Real.sqrt_one]

theorem pillow_cp120 : cotanPair pillowMesh 1 2 0 0 = 0 := by
  simp only [cotanPair, cotan, Mesh.p, pillowMesh, Vec3.sub, Vec3.dot, Vec3.cross, Vec3.norm]
  norm_num [List.getD, Real.sqrt_one]

theorem pillow_cp102 : cotanPair pillowMesh 1 0 2 2 = 1 := by
  simp only [cotanPair, cotan, Mesh.p, pillowMesh, Vec3.sub, Vec3.dot, Vec3.cross, Vec3.norm]
  norm_num [List.getD, Real.sqrt_one]

theorem pillow_cp201 : cotanPair pillowMesh 2 0 1 1 = 1 := by
  simp only [cotanPair, cotan, Mesh.p, pillowMesh, Vec3.sub, Vec3.dot, Vec3.cross, Vec3.norm]
  norm_num [List.getD, Real.sqrt_one]

theorem pillow_cp210 : cotanPair pillowMesh 2 1 0 0 = 0 := by
  simp only [cotanPair, cotan, Mesh.p, pillowMesh, Vec3.sub, Vec3.dot, Vec3.cross, Vec3.norm]
  norm_num [List.getD, Real.sqrt_one]

theorem pillow_meshTopo : pillowMesh.topo = pillowTopo := rfl

theorem pillow_cotanMatrix : buildCotanMatrix pillowMesh = some pillowL := by
  have hall : ∀ i : Fin pillowMesh.topo.nv, (fanVisit pillowMesh.topo (i : ℕ)).isSome := by
    decide
  show (buildCotanMatrix pillowMesh : Option (Matrix (Fin 3) (Fin 3) ℝ)) = some pillowL
  unfold buildCotanMatrix cotanPre
  rw [dif_pos hall]
  rw [Option.map_some']
  refine congrArg some ?_
  ext i j
  fin_cases i <;> fin_cases j <;>
    simp [cotanFinalize, Fin.sum_univ_three, cotanRow, pillow_meshTopo, pillow_fan0,
      pillow_fan1, pillow_fan2, show pillowTopo.nv = 3 from rfl, Option.get_some,
      List.foldl_cons, List.foldl_nil, pillowL, Function.update_apply, Fin.ext_iff,
      pillow_cp011, pillow_cp022, pillow_cp120, pillow_cp102, pillow_cp201, pillow_cp210] <;>
    norm_num
  · exact (by norm_num [Fin.sum_univ_three] :
      (∑ x : Fin 3, if (x : ℕ) = 2 then (1 : ℝ) else if (x : ℕ) = 1 then 1 else 0) = 2)
  · exact (by decide :
      (Finset.filter (fun x : Fin 3 => (x : ℕ) = 0) Finset.univ).card = 1)
  · exact (by norm_num [Fin.sum_univ_three] :
      (∑ x : Fin 3, if (x : ℕ) = 1 then (0 : ℝ) else if (x : ℕ) = 0 then 1 else 0) = 1)

theorem heron_unit_right (p0 p1 p2 : Vec3) (h0 : (p1.sub p0).norm = 1)
    (h1 : (p2.sub p0).norm = 1) (h2 : (p2.sub p1).norm = Real.sqrt 2) :
    heronArea p0 p1 p2 = 1 / 2 := by
  simp only [heronArea]
  rw [h0, h1, h2]
  have ht : Real.sqrt 2 ^ 2 = 2 := Real.sq_sqrt (by norm_num)
  apply sqrt_of_sq _ _ (by norm_num)
  linear_combination ((Real.sqrt 2 ^ 2 - 2) / 16) * ht

theorem pillow_area0 : heronArea (⟨0, 0, 0⟩ : Vec3) ⟨1, 0, 0⟩ ⟨0, 1, 0⟩ = 1 / 2 := by
  apply heron_unit_right <;>
    · simp only [Vec3.sub, Vec3.norm, Vec3.dot]
      norm_num [Real.sqrt_one]

theorem pillow_area1 : heronArea (⟨0, 0, 0⟩ : Vec3) ⟨0, 1, 0⟩ ⟨1, 0, 0⟩ = 1 / 2 := by
  apply heron_unit_right <;>
    · simp only [Vec3.sub, Vec3.norm, Vec3.dot]
      norm_num [Real.sqrt_one]

theorem pillow_faceAreas : faceAreas pillowMesh = [1 / 2, 1 / 2] := by
  show [heronArea ⟨0, 0, 0⟩ ⟨1, 0, 0⟩ ⟨0, 1, 0⟩, heronArea ⟨0, 0, 0⟩ ⟨0, 1, 0⟩ ⟨1, 0, 0⟩] =
    [1 / 2, 1 / 2]
  rw [pillow_area0, pillow_area1]

theorem pillow_mass00 : pillowMass 0 0 = 1 / 3 := by
  simp only [pillowMass, buildMassMatrix, Matrix.of_apply, Fin.val_zero, reduceIte]
  rw [show vfStar pillowMesh.topo 0 = [(0, 0), (1, 0)] from by decide]
  simp [pillow_faceAreas]
  norm_num

/-! ### Claim theorems -/

/-- C1: for every mesh and initial-condition vector, `computeHeatMethodGeodesic`
returns the vector obtained by the composed pipeline: build the mass matrix
and cotangent Laplacian, take `t = m × avgEdgeLength²`, solve
`(M − t·L)·heat = init` with the SPD factorization, compute the per-vertex
gradient, normalize the negated gradient field per vertex, compute its
per-vertex divergence, and return the solution of
`(L + 1e-6·I)·distance = divergence`. -/
theorem computeHeatMethodGeodesic_eq_specPipeline (m : Mesh) (init : Fin m.topo.nv → ℝ)
    (mult : ℝ) : (computeHeatMethodGeodesic m init mult).2 = specPipeline m init mult := by
  simp only [computeHeatMethodGeodesic, specPipeline, heatSystem, geodesicSystem]
  rw [show mult * computeAverageEdgeLength (buildMassMatrix (prepareMesh m)).1 *
      computeAverageEdgeLength (buildMassMatrix (prepareMesh m)).1 =
      mult * computeAverageEdgeLength (buildMassMatrix (prepareMesh m)).1 ^ 2 from by ring]
  rfl

/-- C10: `computeHeatMethodGeodesic` never modifies vertex positions, the
faces' vertex references, or the per-vertex quality field; of the mesh state
only the adjacency links, the per-face normals and the per-face quality are
written. -/
theorem computeHeatMethodGeodesic_frame (m : Mesh) (init : Fin m.topo.nv → ℝ) (mult : ℝ) :
    (computeHeatMethodGeodesic m init mult).1.pos = m.pos ∧
    (computeHeatMethodGeodesic m init mult).1.topo.faces = m.topo.faces ∧
    (computeHeatMethodGeodesic m init mult).1.vertQ = m.vertQ :=
  ⟨rfl, rfl, rfl⟩

/-- C9 (counterexample): after the mass-matrix stage on the doubled right
triangle, vertex 0's quality field still holds its prior value (7) and not the
vertex's dual-cell area `1/3` (the mass diagonal entry), so the vertex quality
field is not written with the dual-cell area. -/
theorem vertex_quality_not_dual_area :
    (buildMassMatrix pillowMesh).1.vertQ.getD 0 0 ≠ pillowMass 0 0 := by
  rw [show (buildMassMatrix pillowMesh).1.vertQ.getD 0 0 = (7 : ℝ) from rfl, pillow_mass00]
  norm_num

/-- C9 (amended): the pipeline's scratch area state lives on the faces, not
the vertices: the per-face quality field is written with the faces' Heron
areas in the mass-matrix stage (and later read by the gradient stage), while
the per-vertex quality field is never written. -/
theorem pipeline_faceQ_areas_vertQ_untouched (m : Mesh) (init : Fin m.topo.nv → ℝ)
    (mult : ℝ) :
    (computeHeatMethodGeodesic m init mult).1.faceQ = faceAreas m ∧
    (computeHeatMethodGeodesic m init mult).1.vertQ = m.vertQ :=
  ⟨rfl, rfl⟩

/-- C6: every entry of the vector returned by `computeVertexDivergence` (in
the extended-value model carrying NaN and infinities) is finite: a per-vertex
accumulated value that is NaN or ±∞ is replaced by zero after accumulation,
so no NaN or infinity reaches the following solve. -/
theorem computeVertexDivergenceFP_finite (m : Mesh) (field : Fin m.topo.nv → FPV)
    (i : Fin m.topo.nv) : (computeVertexDivergenceFP m field i).isFinite = true :=
  sanitizeFP_isFinite _

/-- C2 (supporting evaluation): on the doubled right triangle the
second-solve system of the non-verbose entry point (`L + 1e-6·I`, line 343)
differs from the matrix the verbose entry point factors (`L` itself,
line 395) already in entry (0,0). -/
theorem verbose_second_system_differs :
    buildCotanMatrix pillowMesh = some pillowL ∧
    geodesicSystem pillowL 0 0 ≠ pillowL 0 0 := by
  refine ⟨pillow_cotanMatrix, ?_⟩
  simp only [geodesicSystem, Matrix.add_apply, Matrix.smul_apply, Matrix.one_apply_eq,
    smul_eq_mul, mul_one]
  intro h
  have : (1e-6 : ℝ) = 0 := by linarith
  norm_num at this

/-- C3 (failing input): on a single 3-4-5 right triangle the summed
semi-perimeter is 6 and the face count is 1, so the claimed value is
`6 / 1.5 = 4`; the code divides by `3/2 * FN` in integer arithmetic, i.e. by
`FN = 1`, and returns 6. -/
theorem averageEdgeLength_int_division_bug :
    computeAverageEdgeLength tri345Mesh = 6 ∧ specAverageEdgeLength tri345Mesh = 4 := by
  have h9 : Real.sqrt 9 = 3 := sqrt_of_sq _ _ (by norm_num) (by norm_num)
  have h16 : Real.sqrt 16 = 4 := sqrt_of_sq _ _ (by norm_num) (by norm_num)
  have h25 : Real.sqrt 25 = 5 := sqrt_of_sq _ _ (by norm_num) (by norm_num)
  have hsp : faceSemiPerimeter tri345Mesh ⟨0, 1, 2⟩ = 6 := by
    show (Vec3.norm (Vec3.sub ⟨3, 0, 0⟩ ⟨0, 0, 0⟩) + Vec3.norm (Vec3.sub ⟨0, 4, 0⟩ ⟨0, 0, 0⟩) +
      Vec3.norm (Vec3.sub ⟨0, 4, 0⟩ ⟨3, 0, 0⟩)) / 2 = 6
    simp only [Vec3.sub, Vec3.norm, Vec3.dot]
    norm_num [h9, h16, h25]
  constructor
  · show (List.map (faceSemiPerimeter tri345Mesh) [⟨0, 1, 2⟩]).sum /
      ((3 / 2 * ((1 : ℕ) : ℤ) : ℤ) : ℝ) = 6
    rw [List.map_cons, List.map_nil, List.sum_cons, List.sum_nil, hsp]
    norm_num
  · show (List.map (faceSemiPerimeter tri345Mesh) [⟨0, 1, 2⟩]).sum /
      ((1.5 : ℝ) * ((1 : ℕ) : ℝ)) = 4
    rw [List.map_cons, List.map_nil, List.sum_cons, List.sum_nil, hsp]
    norm_num

theorem gradientTerm_eq_amended (m : Mesh) (h : ℝ) (fi : ℕ) (idx : Fin 3) :
    gradientTerm m h fi idx = amendedGradientTerm m h fi idx := by
  fin_cases idx <;> rfl

/-- C7 (amended): the gradient row for a vertex equals the sum over its
incident faces of the cross product of the face's unit normal with the unit
edge vector opposite the vertex's face-local index (in that order, as the
source computes `n.cross(e)`), scaled by `heat[v] / (2 × faceArea)` with the
face area read from the face quality field. -/
theorem computeVertexGradient_eq_amendedRow (m : Mesh) (heat : Fin m.topo.nv → ℝ)
    (i : Fin m.topo.nv) : computeVertexGradient m heat i = amendedGradientRow m heat i := by
  unfold computeVertexGradient amendedGradientRow
  have hstep : (fun (acc : Vec3) (s : ℕ × Fin 3) => acc.add (gradientTerm m (heat i) s.1 s.2)) =
      fun acc s => acc.add (amendedGradientTerm m (heat i) s.1 s.2) := by
    funext acc s
    rw [gradientTerm_eq_amended]
  rw [hstep]

theorem pillow_gradTerm0 :
    gradientTerm pillowMesh 1 0 0 =
      ⟨-(1 / Real.sqrt 2), -(1 / Real.sqrt 2), 0⟩ := by
  show (((Vec3.mk 0 0 1).sdiv (Vec3.mk 0 0 1).norm).cross
      ((Vec3.sub ⟨0, 1, 0⟩ ⟨1, 0, 0⟩).sdiv (Vec3.sub ⟨0, 1, 0⟩ ⟨1, 0, 0⟩).norm)).smul
      (1 / (2 * (1 / 2))) = ⟨-(1 / Real.sqrt 2), -(1 / Real.sqrt 2), 0⟩
  simp only [Vec3.sub, Vec3.norm, Vec3.dot, Vec3.sdiv, Vec3.cross, Vec3.smul]
  norm_num [Real.sqrt_one]
  ring_nf

theorem pillow_gradTerm1 :
    gradientTerm pillowMesh 1 1 0 =
      ⟨-(1 / Real.sqrt 2), -(1 / Real.sqrt 2), 0⟩ := by
  show (((Vec3.mk 0 0 (-1)).sdiv (Vec3.mk 0 0 (-1)).norm).cross
      ((Vec3.sub ⟨1, 0, 0⟩ ⟨0, 1, 0⟩).sdiv (Vec3.sub ⟨1, 0, 0⟩ ⟨0, 1, 0⟩).norm)).smul
      (1 / (2 * (1 / 2))) = ⟨-(1 / Real.sqrt 2), -(1 / Real.sqrt 2), 0⟩
  simp only [Vec3.sub, Vec3.norm, Vec3.dot, Vec3.sdiv, Vec3.cross, Vec3.smul]
  norm_num [Real.sqrt_one]
  ring_nf

theorem pillow_claimTerm0 :
    claimGradientTerm pillowMesh 1 0 0 = ⟨1 / Real.sqrt 2, 1 / Real.sqrt 2, 0⟩ := by
  show (((Vec3.sub ⟨0, 1, 0⟩ ⟨1, 0, 0⟩).sdiv (Vec3.sub ⟨0, 1, 0⟩ ⟨1, 0, 0⟩).norm).cross
      ((Vec3.mk 0 0 1).sdiv (Vec3.mk 0 0 1).norm)).smul
      (1 / (2 * (1 / 2))) = ⟨1 / Real.sqrt 2, 1 / Real.sqrt 2, 0⟩
  simp only [Vec3.sub, Vec3.norm, Vec3.dot, Vec3.sdiv, Vec3.cross, Vec3.smul]
  norm_num [Real.sqrt_one]
  ring_nf

theorem pillow_claimTerm1 :
    claimGradientTerm pillowMesh 1 1 0 = ⟨1 / Real.sqrt 2, 1 / Real.sqrt 2, 0⟩ := by
  show (((Vec3.sub ⟨1, 0, 0⟩ ⟨0, 1, 0⟩).sdiv (Vec3.sub ⟨1, 0, 0⟩ ⟨0, 1, 0⟩).norm).cross
      ((Vec3.mk 0 0 (-1)).sdiv (Vec3.mk 0 0 (-1)).norm)).smul
      (1 / (2 * (1 / 2))) = ⟨1 / Real.sqrt 2, 1 / Real.sqrt 2, 0⟩
  simp only [Vec3.sub, Vec3.norm, Vec3.dot, Vec3.sdiv, Vec3.cross, Vec3.smul]
  norm_num [Real.sqrt_one]
  ring_nf

/-- C7 (counterexample): on the doubled right triangle with unit heat, the row
the claim's formula (edge × normal) produces for vertex 0 differs from the row
`computeVertexGradient` actually returns (the source computes normal × edge):
the two are opposite and nonzero. -/
theorem claim_gradient_cross_order_wrong :
    claimGradientRow pillowMesh (fun _ => 1) ⟨0, by decide⟩ ≠
      computeVertexGradient pillowMesh (fun _ => 1) ⟨0, by decide⟩ := by
  have hstar : vfStar pillowMesh.topo
      ((⟨0, by decide⟩ : Fin pillowMesh.topo.nv) : ℕ) = [(0, 0), (1, 0)] := by decide
  have hsq : (0 : ℝ) < Real.sqrt 2 := Real.sqrt_pos.mpr (by norm_num)
  have hinv : (0 : ℝ) < 1 / Real.sqrt 2 := by positivity
  intro h
  rw [claimGradientRow, computeVertexGradient, hstar] at h
  simp only [List.foldl_cons, List.foldl_nil] at h
  rw [pillow_gradTerm0, pillow_gradTerm1, pillow_claimTerm0, pillow_claimTerm1] at h
  have hx := congrArg Vec3.x h
  simp only [Vec3.add, Vec3.zero] at hx
  linarith [hx]

/-! ### Fan-walk machinery: invariants and involutions on valid topologies -/

theorem face_mem (t : Topo) (fi : ℕ) (h : fi < t.faces.length) : t.face fi ∈ t.faces := by
  unfold Topo.face
  rw [List.getD_eq_getElem?_getD, List.getElem?_eq_getElem h]
  exact List.getElem_mem h

theorem corner_lt (t : Topo) (hf : facesWellFormed t) (fi : ℕ) (h : fi < t.faces.length)
    (z : Fin 3) : t.corner fi z < t.nv := by
  obtain ⟨⟨h0, h1, h2⟩, _⟩ := hf _ (face_mem t fi h)
  unfold Topo.corner
  fin_cases z <;> simpa [Tri.get]

theorem corner_inj (t : Topo) (hf : facesWellFormed t) (fi : ℕ) (h : fi < t.faces.length)
    {z w : Fin 3} (hzw : z ≠ w) : t.corner fi z ≠ t.corner fi w := by
  obtain ⟨_, ⟨d01, d12, d02⟩⟩ := hf _ (face_mem t fi h)
  unfold Topo.corner
  fin_cases z <;> fin_cases w <;> simp_all [Tri.get] <;> omega

theorem fin3_add_one_ne (z : Fin 3) : z ≠ z + 1 := by fin_cases z <;> decide

theorem fin3_add_two_ne (z : Fin 3) : z ≠ z + 2 := by fin_cases z <;> decide

theorem fin3_add_two_add_one (z : Fin 3) : z + 2 + 1 = z := by fin_cases z <;> decide

theorem fin3_add_one_add_two (z : Fin 3) : z + 1 + 2 = z := by fin_cases z <;> decide

theorem fin3_succ_ne_add_two (z : Fin 3) : z + 1 ≠ z + 2 := by fin_cases z <;> decide

theorem pair_eq_cases {a b c d : ℕ} (h : (min a b, max a b) = (min c d, max c d)) :
    (a = c ∧ b = d) ∨ (a = d ∧ b = c) := by
  obtain ⟨h1, h2⟩ := Prod.mk.injEq .. ▸ h
  omega

theorem flipV_inv (t : Topo) {p : Pose} (h : PoseInv t p) : PoseInv t (flipV t p) := by
  refine ⟨h.1, ?_⟩
  unfold flipV
  by_cases hc : p.v = t.corner p.f p.z <;> simp [hc]

theorem flipE_inv (t : Topo) {p : Pose} (h : PoseInv t p) : PoseInv t (flipE t p) := by
  refine ⟨h.1, ?_⟩
  unfold flipE
  by_cases h1 : p.v = t.corner p.f p.z
  · rw [if_pos h1]
    right
    rw [fin3_add_two_add_one]
    exact h1
  · have h2 : p.v = t.corner p.f (p.z + 1) := h.2.resolve_left h1
    rw [if_neg h1, if_pos h2]
    left
    exact h2

theorem flipF_inv (t : Topo) (hff : ffWellFormed t) {p : Pose} (h : PoseInv t p) :
    PoseInv t (flipF t p) := by
  obtain ⟨hl1, hl2, hcl⟩ := hff
  obtain ⟨hfR, hinv1, hinv2, hends⟩ := hcl p.f h.1 p.z
  refine ⟨hfR, ?_⟩
  have hmem := pair_eq_cases hends
  unfold flipF
  rcases h.2 with hv | hv <;> rcases hmem with ⟨ha, hb⟩ | ⟨ha, hb⟩ <;>
    simp only [] <;> omega

theorem flipV_flipV (t : Topo) (hf : facesWellFormed t) {p : Pose} (hp : PoseInv t p) :
    flipV t (flipV t p) = p := by
  have hne := corner_inj t hf p.f hp.1 (fin3_add_one_ne p.z)
  have hne' := hne.symm
  by_cases h1 : p.v = t.corner p.f p.z
  · unfold flipV
    cases p
    simp_all
  · have h2 : p.v = t.corner p.f (p.z + 1) := hp.2.resolve_left h1
    unfold flipV
    cases p
    simp_all

theorem flipE_flipE (t : Topo) (hf : facesWellFormed t) {p : Pose} (hp : PoseInv t p) :
    flipE t (flipE t p) = p := by
  unfold flipE
  by_cases h1 : p.v = t.corner p.f p.z
  · rw [if_pos h1]
    simp only []
    rw [if_neg (fun hc => corner_inj t hf p.f hp.1 (fin3_add_two_ne p.z) (h1 ▸ hc)),
      if_pos (by rw [fin3_add_two_add_one]; exact h1)]
    cases p
    simp [fin3_add_two_add_one]
  · have h2 : p.v = t.corner p.f (p.z + 1) := hp.2.resolve_left h1
    rw [if_neg h1, if_pos h2]
    simp only []
    rw [if_pos h2]
    cases p
    simp [fin3_add_one_add_two]

theorem flipF_flipF (t : Topo) (hff : ffWellFormed t) {p : Pose}
    (hp : p.f < t.faces.length) : flipF t (flipF t p) = p := by
  obtain ⟨_, _, hcl⟩ := hff
  obtain ⟨_, hinv1, hinv2, _⟩ := hcl p.f hp p.z
  unfold flipF
  simp only []
  rw [hinv1, hinv2]

theorem advanceStep_v (t : Topo) (p : Pose) : (advanceStep t p).v = p.v := rfl

theorem advanceStep_inv (t : Topo) (hff : ffWellFormed t) {p : Pose} (hp : PoseInv t p) :
    PoseInv t (advanceStep t p) :=
  flipE_inv t (flipF_inv t hff hp)

theorem advanceStep_leftInv (t : Topo) (hf : facesWellFormed t) (hff : ffWellFormed t)
    {p : Pose} (hp : PoseInv t p) : flipF t (flipE t (advanceStep t p)) = p := by
  unfold advanceStep
  rw [flipE_flipE t hf (flipF_inv t hff hp), flipF_flipF t hff hp.1]

theorem walkBody_fst (t : Topo) (hf : facesWellFormed t) (hff : ffWellFormed t)
    {p : Pose} (hp : PoseInv t p) : (walkBody t p).1 = p := by
  have h1 : PoseInv t (flipV t p) := flipV_inv t hp
  have h2 : PoseInv t (flipE t (flipV t p)) := flipE_inv t h1
  have h3 : PoseInv t (flipF t (flipV t p)) := flipF_inv t hff h1
  have h4 : PoseInv t (flipE t (flipF t (flipV t p))) := flipE_inv t h3
  show flipV t (flipF t (flipE t (flipV t (flipV t (flipE t (flipF t (flipE t (flipV t
    (flipV t (flipE t (flipV t p))))))))))) = p
  rw [flipV_flipV t hf h2, flipE_flipE t hf h1, flipV_flipV t hf h4,
    flipE_flipE t hf h3, flipF_flipF t hff h1.1, flipV_flipV t hf hp]

theorem initPose_spec (t : Topo) (fi v : ℕ) (hfi : fi < t.faces.length)
    (hc : ∃ j : Fin 3, t.corner fi j = v) :
    PoseInv t (initPose t fi v) ∧ (initPose t fi v).v = v := by
  refine ⟨⟨hfi, ?_⟩, rfl⟩
  unfold initPose
  by_cases h0 : t.corner fi 0 = v
  · rw [if_pos h0]
    exact Or.inl h0.symm
  · by_cases h1 : t.corner fi 1 = v
    · rw [if_neg h0, if_pos h1]
      exact Or.inl h1.symm
    · rw [if_neg h0, if_neg h1]
      obtain ⟨j, hj⟩ := hc
      left
      fin_cases j
      · exact absurd hj h0
      · exact absurd hj h1
      · exact hj.symm

theorem iterate_inv (t : Topo) (hff : ffWellFormed t) (n : ℕ) {p : Pose}
    (hp : PoseInv t p) : PoseInv t ((advanceStep t)^[n] p) := by
  induction n with
  | zero => simpa
  | succ n ih =>
    rw [Function.iterate_succ_apply']
    exact advanceStep_inv t hff ih

theorem iterate_v (t : Topo) (n : ℕ) (p : Pose) :
    ((advanceStep t)^[n] p).v = p.v := by
  induction n with
  | zero => rfl
  | succ n ih =>
    rw [Function.iterate_succ_apply', advanceStep_v, ih]

theorem iterate_inj (t : Topo) (hf : facesWellFormed t) (hff : ffWellFormed t) (k : ℕ) :
    ∀ {a b : Pose}, PoseInv t a → PoseInv t b →
      (advanceStep t)^[k] a = (advanceStep t)^[k] b → a = b := by
  induction k with
  | zero => intro a b _ _ h; simpa using h
  | succ k ih =>
    intro a b ha hb h
    rw [Function.iterate_succ_apply', Function.iterate_succ_apply'] at h
    have hstep : advanceStep t ((advanceStep t)^[k] a) = advanceStep t ((advanceStep t)^[k] b) := h
    have hmap := congrArg (fun q => flipF t (flipE t q)) hstep
    dsimp only at hmap
    rw [advanceStep_leftInv t hf hff (iterate_inv t hff k ha),
      advanceStep_leftInv t hf hff (iterate_inv t hff k hb)] at hmap
    exact ih ha hb hmap

theorem advance_orbit_returns (t : Topo) (hv : validTopo t) {p0 : Pose}
    (h0 : PoseInv t p0) : ∃ k, 1 ≤ k ∧ (advanceStep t)^[k] p0 = p0 := by
  obtain ⟨hf, hff, _⟩ := hv
  have hvlt : ∀ n, ((advanceStep t)^[n] p0).v < t.nv := by
    intro n
    have hInv := iterate_inv t hff n h0
    rcases hInv.2 with h | h <;> rw [h] <;> exact corner_lt t hf _ hInv.1 _
  let E : ℕ → Fin t.faces.length × Fin 3 × Fin t.nv := fun n =>
    (⟨((advanceStep t)^[n] p0).f, (iterate_inv t hff n h0).1⟩,
     ((advanceStep t)^[n] p0).z,
     ⟨((advanceStep t)^[n] p0).v, hvlt n⟩)
  obtain ⟨i, j, hij, hEij⟩ := Finite.exists_ne_map_eq_of_infinite E
  have hpose : ∀ {i j : ℕ}, E i = E j →
      (advanceStep t)^[i] p0 = (advanceStep t)^[j] p0 := by
    intro i j hE
    obtain ⟨hE1, hE23⟩ := Prod.ext_iff.mp hE
    obtain ⟨hE2, hE3⟩ := Prod.ext_iff.mp hE23
    have h1 : ((advanceStep t)^[i] p0).f = ((advanceStep t)^[j] p0).f :=
      congrArg Fin.val hE1
    have h3 : ((advanceStep t)^[i] p0).v = ((advanceStep t)^[j] p0).v :=
      congrArg Fin.val hE3
    have hext : ∀ p q : Pose, p.f = q.f → p.z = q.z → p.v = q.v → p = q := by
      intro p q a1 a2 a3
      cases p
      cases q
      simp_all
    exact hext _ _ h1 hE2 h3
  rcases Nat.lt_or_ge i j with hlt | hge
  · refine ⟨j - i, by omega, ?_⟩
    have : (advanceStep t)^[i + (j - i)] p0 = (advanceStep t)^[i] p0 := by
      rw [show i + (j - i) = j by omega]
      exact (hpose hEij).symm
    rw [Function.iterate_add_apply] at this
    exact iterate_inj t hf hff i (iterate_inv t hff _ h0) h0 this
  · have hlt : j < i := by omega
    refine ⟨i - j, by omega, ?_⟩
    have : (advanceStep t)^[j + (i - j)] p0 = (advanceStep t)^[j] p0 := by
      rw [show j + (i - j) = i by omega]
      exact hpose hEij
    rw [Function.iterate_add_apply] at this
    exact iterate_inj t hf hff j (iterate_inv t hff _ h0) h0 this

theorem fanLoop_isSome_of_return (t : Topo) (start : Pose) (hf : facesWellFormed t)
    (hff : ffWellFormed t) :
    ∀ fuel (p : Pose), PoseInv t p →
      (∃ k, 1 ≤ k ∧ k ≤ fuel ∧ (advanceStep t)^[k] p = start) →
      (fanLoop t start fuel p).isSome := by
  intro fuel
  induction fuel with
  | zero =>
    rintro p _ ⟨k, hk1, hk2, _⟩
    omega
  | succ fuel ih =>
    rintro p hp ⟨k, hk1, hkle, hret⟩
    simp only [fanLoop, walkBody_fst t hf hff hp]
    by_cases hstop : advanceStep t p = start
    · rw [if_pos hstop]
      rfl
    · rw [if_neg hstop]
      have hk2 : 2 ≤ k := by
        rcases Nat.lt_or_ge k 2 with hk | hk
        · exfalso
          have hk1' : k = 1 := by omega
          apply hstop
          simpa [hk1'] using hret
        · exact hk
      have hrec : (fanLoop t start fuel (advanceStep t p)).isSome := by
        apply ih (advanceStep t p) (advanceStep_inv t hff hp)
        refine ⟨k - 1, by omega, by omega, ?_⟩
        have hsplit : (advanceStep t)^[k] p = (advanceStep t)^[k - 1] (advanceStep t p) := by
          conv_lhs => rw [show k = (k - 1) + 1 by omega]
          rw [Function.iterate_add_apply]
          rfl
        rw [← hsplit]
        exact hret
      obtain ⟨l, hl⟩ := Option.isSome_iff_exists.mp hrec
      rw [hl]
      rfl

/-- C8 (amended): on a mesh with valid closed-fan adjacency the per-vertex fan
walk of `buildCotanMatrix` halts: the cursor returns to its starting pose
after finitely many moves.  (On malformed adjacency the source has no
move-count bound and the walk can loop forever; see the counterexample.) -/
theorem fanWalk_halts_on_valid (t : Topo) (v : ℕ) (hv : validTopo t) (hvn : v < t.nv) :
    fanWalkHalts t v := by
  obtain ⟨hf, hff, hvfp⟩ := hv
  obtain ⟨fi, hfi, hsome, hcorner⟩ := hvfp.2 v hvn
  obtain ⟨hInv, hveq⟩ := initPose_spec t fi v hfi hcorner
  obtain ⟨k, hk1, hret⟩ := advance_orbit_returns t ⟨hf, hff, hvfp⟩ hInv
  refine ⟨k, ?_⟩
  unfold fanVisitFuel
  rw [hsome]
  exact fanLoop_isSome_of_return t _ hf hff k _ hInv ⟨k, hk1, le_refl k, hret⟩

theorem badLoop_none : ∀ fuel (p : Pose), (p = ⟨1, 2, 0⟩ ∨ p = ⟨1, 0, 0⟩) →
    fanLoop badTopo ⟨0, 0, 0⟩ fuel p = none := by
  intro fuel
  induction fuel with
  | zero => intro p _; rfl
  | succ fuel ih =>
    rintro p (rfl | rfl)
    · have h1 : advanceStep badTopo (walkBody badTopo ⟨1, 2, 0⟩).1 = ⟨1, 0, 0⟩ := by decide
      simp only [fanLoop, h1]
      rw [if_neg (by decide), ih _ (Or.inr rfl)]
    · have h1 : advanceStep badTopo (walkBody badTopo ⟨1, 0, 0⟩).1 = ⟨1, 2, 0⟩ := by decide
      simp only [fanLoop, h1]
      rw [if_neg (by decide), ih _ (Or.inl rfl)]

/-- C8 (counterexample): on a malformed mesh whose face-face links are glued
inconsistently, vertex 0's fan walk never returns to its start pose: for no
iteration bound does the `do`-`while` loop of `buildCotanMatrix` finish, so
the source (which has no move-count bound) loops forever instead of failing
with a malformed-input error. -/
theorem badTopo_fan_walk_never_halts : ¬ fanWalkHalts badTopo 0 := by
  rintro ⟨fuel, hfuel⟩
  have hred : fanVisitFuel badTopo fuel 0 = fanLoop badTopo ⟨0, 0, 0⟩ fuel ⟨0, 0, 0⟩ := rfl
  rw [hred] at hfuel
  cases fuel with
  | zero => simp [fanLoop] at hfuel
  | succ n =>
    have h1 : advanceStep badTopo (walkBody badTopo ⟨0, 0, 0⟩).1 = ⟨1, 2, 0⟩ := by decide
    simp only [fanLoop, h1] at hfuel
    rw [if_neg (by decide), badLoop_none n _ (Or.inl rfl)] at hfuel
    simp at hfuel

/-- Witness for the amended C8 theorem: the doubled right triangle has valid
closed-fan adjacency and vertex 0's fan walk halts. -/
theorem fanWalk_halts_witness :
    validTopo pillowTopo ∧ 0 < pillowTopo.nv ∧ fanWalkHalts pillowTopo 0 :=
  ⟨by decide, by decide, fanWalk_halts_on_valid pillowTopo 0 (by decide) (by decide)⟩

theorem flipV_v_facts (t : Topo) (hf : facesWellFormed t) {p : Pose} (hp : PoseInv t p) :
    (flipV t p).v < t.nv ∧ (flipV t p).v ≠ p.v := by
  unfold flipV
  by_cases h1 : p.v = t.corner p.f p.z
  · rw [if_pos h1]
    show t.corner p.f (p.z + 1) < t.nv ∧ t.corner p.f (p.z + 1) ≠ p.v
    refine ⟨corner_lt t hf _ hp.1 _, fun hc => ?_⟩
    exact absurd (hc.trans h1) (corner_inj t hf p.f hp.1 (fin3_add_one_ne p.z)).symm
  · rw [if_neg h1]
    show t.corner p.f p.z < t.nv ∧ t.corner p.f p.z ≠ p.v
    exact ⟨corner_lt t hf _ hp.1 _, fun hc => h1 hc.symm⟩

theorem fanLoop_triples (t : Topo) (start : Pose) (hf : facesWellFormed t)
    (hff : ffWellFormed t) :
    ∀ fuel (p : Pose) (l : List (ℕ × ℕ × ℕ)), PoseInv t p →
      fanLoop t start fuel p = some l →
      ∀ s ∈ l, s.1 < t.nv ∧ s.1 ≠ p.v := by
  intro fuel
  induction fuel with
  | zero =>
    intro p l _ h
    exact absurd h (by simp [fanLoop])
  | succ fuel ih =>
    intro p l hp hl
    have hvo : (walkBody t p).2.1 < t.nv ∧ (walkBody t p).2.1 ≠ p.v :=
      flipV_v_facts t hf hp
    simp only [fanLoop, walkBody_fst t hf hff hp] at hl
    by_cases hstop : advanceStep t p = start
    · rw [if_pos hstop] at hl
      obtain rfl : [(walkBody t p).2] = l := Option.some_inj.mp hl
      intro s hs
      rw [List.mem_singleton] at hs
      subst hs
      exact hvo
    · rw [if_neg hstop] at hl
      cases hrec : fanLoop t start fuel (advanceStep t p) with
      | none =>
        rw [hrec] at hl
        exact absurd hl (by simp)
      | some rest =>
        rw [hrec] at hl
        obtain rfl : (walkBody t p).2 :: rest = l := Option.some_inj.mp hl
        intro s hs
        rcases List.mem_cons.mp hs with rfl | hs
        · exact hvo
        · have := ih (advanceStep t p) rest (advanceStep_inv t hff hp) hrec s hs
          rwa [advanceStep_v] at this

theorem cotanRow_apply_self (m : Mesh) (i : ℕ) (hi : i < m.topo.nv)
    (ts : List (ℕ × ℕ × ℕ)) (h : ∀ s ∈ ts, s.1 ≠ i) :
    cotanRow m i ts ⟨i, hi⟩ = 0 := by
  unfold cotanRow
  have H : ∀ (l : List (ℕ × ℕ × ℕ)) (row : Fin m.topo.nv → ℝ), (∀ s ∈ l, s.1 ≠ i) →
      row ⟨i, hi⟩ = 0 →
      (l.foldl (fun row s =>
        if hs : s.1 < m.topo.nv then
          Function.update row ⟨s.1, hs⟩ (cotanPair m i s.1 s.2.1 s.2.2)
        else row) row) ⟨i, hi⟩ = 0 := by
    intro l
    induction l with
    | nil =>
      intro row _ hrow
      simpa using hrow
    | cons s ts ihs =>
      intro row hts hrow
      simp only [List.foldl_cons]
      apply ihs _ fun q hq => hts q (List.mem_cons_of_mem _ hq)
      by_cases hs : s.1 < m.topo.nv
      · rw [dif_pos hs, Function.update_noteq]
        · exact hrow
        · intro hc
          exact hts s (List.mem_cons_self s ts) (by
            have := congrArg Fin.val hc
            simpa using this.symm)
      · rw [dif_neg hs]
        exact hrow
  exact H ts _ h rfl

theorem cotanFinalize_row_sum {n : ℕ} (P : Matrix (Fin n) (Fin n) ℝ) (i : Fin n)
    (hdiag : P i i = 0) : ∑ j, cotanFinalize P i j = 0 := by
  unfold cotanFinalize
  simp only [Matrix.of_apply]
  rw [← Finset.sum_erase_add _ _ (Finset.mem_univ i), if_pos rfl]
  have herase : ∑ j ∈ Finset.univ.erase i, (if i = j then -(∑ k, P i k) else P i j) =
      ∑ j ∈ Finset.univ.erase i, P i j := by
    apply Finset.sum_congr rfl
    intro j hj
    exact if_neg fun hc => (Finset.mem_erase.mp hj).1 hc.symm
  rw [herase]
  have hsum : ∑ k, P i k = ∑ j ∈ Finset.univ.erase i, P i j := by
    rw [← Finset.sum_erase_add _ _ (Finset.mem_univ i), hdiag, add_zero]
  rw [hsum]
  ring

/-- C4: for every mesh with valid closed-fan adjacency, every row of the
matrix produced by `buildCotanMatrix` sums to zero: after the fan walks have
set the off-diagonal entries (and, by validity, written nothing on the
diagonal), the diagonal pass sets each diagonal entry to the negated sum of
its row. -/
theorem buildCotanMatrix_rows_sum_zero (m : Mesh)
    (L : Matrix (Fin m.topo.nv) (Fin m.topo.nv) ℝ) (hv : validTopo m.topo)
    (hL : buildCotanMatrix m = some L) (i : Fin m.topo.nv) : ∑ j, L i j = 0 := by
  obtain ⟨hf, hff, hvfp⟩ := hv
  unfold buildCotanMatrix cotanPre at hL
  by_cases hall : ∀ k : Fin m.topo.nv, (fanVisit m.topo (k : ℕ)).isSome
  case neg =>
    rw [dif_neg hall] at hL
    exact absurd hL (by simp)
  rw [dif_pos hall, Option.map_some'] at hL
  obtain rfl := (Option.some_inj.mp hL).symm
  apply cotanFinalize_row_sum
  simp only [Matrix.of_apply]
  obtain ⟨fi, hfi, hsome, hcorner⟩ := hvfp.2 (i : ℕ) i.isLt
  obtain ⟨hInv, hveq⟩ := initPose_spec m.topo fi (i : ℕ) hfi hcorner
  have hfv : fanVisit m.topo (i : ℕ) =
      fanLoop m.topo (initPose m.topo fi (i : ℕ)) (defaultFuel m.topo)
        (initPose m.topo fi (i : ℕ)) := by
    unfold fanVisit fanVisitFuel
    rw [hsome]
  obtain ⟨l, hl⟩ := Option.isSome_iff_exists.mp (hall i)
  have hget : (fanVisit m.topo (i : ℕ)).get (hall i) = l := by
    simp [hl]
  rw [hget]
  have htr := fanLoop_triples m.topo _ hf hff (defaultFuel m.topo) _ l hInv
    (by rw [← hfv]; exact hl)
  have hzero := cotanRow_apply_self m (i : ℕ) i.isLt l fun s hs => by
    have := (htr s hs).2
    rwa [hveq] at this
  simpa using hzero

/-- Witness for the C4 theorem: the doubled right triangle is valid, its cotan
matrix is built, and row 0 sums to zero. -/
theorem buildCotanMatrix_rows_sum_zero_witness :
    validTopo pillowMesh.topo ∧ buildCotanMatrix pillowMesh = some pillowL ∧
      ∑ j : Fin 3, pillowL 0 j = 0 :=
  ⟨by decide, pillow_cotanMatrix,
    buildCotanMatrix_rows_sum_zero pillowMesh pillowL (by decide) pillow_cotanMatrix
      ⟨0, by decide⟩⟩

/-! ### Mass-matrix lemmas -/

theorem list_map_flatMap_sum {α β : Type} (l : List α) (f : α → List β) (g : β → ℝ) :
    ((l.flatMap f).map g).sum = (l.map fun a => ((f a).map g).sum).sum := by
  induction l with
  | nil => simp
  | cons a l ih => simp [List.flatMap_cons, ih]

theorem list_map_const_sum {β : Type} (l : List β) (c : ℝ) :
    (l.map fun _ => c).sum = l.length * c := by
  induction l with
  | nil => simp
  | cons b l ih =>
    simp only [List.map_cons, List.sum_cons, ih, List.length_cons]
    push_cast
    ring

theorem list_range_map_sum (n : ℕ) (f : ℕ → ℝ) :
    ((List.range n).map f).sum = ∑ k ∈ Finset.range n, f k := by
  induction n with
  | zero => simp
  | succ n ih => rw [List.range_succ, Finset.sum_range_succ, List.map_append]; simp [ih]

theorem star_map_sum (t : Topo) (v : ℕ) (g : ℕ → ℝ) :
    ((vfStar t v).map fun s => g s.1).sum =
      ∑ fi ∈ Finset.range t.faces.length,
        (((List.finRange 3).filter fun j => t.corner fi j = v).length : ℝ) * g fi := by
  unfold vfStar
  rw [list_map_flatMap_sum, ← list_range_map_sum]
  simp only [List.map_map, Function.comp_def, list_map_const_sum]

theorem incidence_count_indicator (t : Topo) (fi : ℕ) (v : ℕ) :
    (((List.finRange 3).filter fun j => t.corner fi j = v).length : ℝ) =
      ∑ j : Fin 3, if t.corner fi j = v then (1 : ℝ) else 0 := by
  rw [show (List.finRange 3) = [0, 1, 2] from by decide, Fin.sum_univ_three]
  by_cases h0 : t.corner fi 0 = v <;> by_cases h1 : t.corner fi 1 = v <;>
    by_cases h2 : t.corner fi 2 = v <;>
    simp [List.filter_cons, h0, h1, h2] <;> norm_num

theorem incidence_count_distinct (t : Topo) (hf : facesWellFormed t) (fi : ℕ)
    (hfi : fi < t.faces.length) (v : ℕ) :
    (((List.finRange 3).filter fun j => t.corner fi j = v).length : ℝ) =
      if ∃ j : Fin 3, t.corner fi j = v then 1 else 0 := by
  have h01 := corner_inj t hf fi hfi (show (0 : Fin 3) ≠ 1 by decide)
  have h12 := corner_inj t hf fi hfi (show (1 : Fin 3) ≠ 2 by decide)
  have h02 := corner_inj t hf fi hfi (show (0 : Fin 3) ≠ 2 by decide)
  have hex : ∀ P : Fin 3 → Prop, (∃ j : Fin 3, P j) ↔ P 0 ∨ P 1 ∨ P 2 := by
    intro P
    constructor
    · rintro ⟨j, hj⟩
      fin_cases j
      · exact Or.inl hj
      · exact Or.inr (Or.inl hj)
      · exact Or.inr (Or.inr hj)
    · rintro (h | h | h) <;> exact ⟨_, h⟩
  rw [show (List.finRange 3) = [0, 1, 2] from by decide]
  by_cases h0 : t.corner fi 0 = v <;> by_cases h1 : t.corner fi 1 = v <;>
    by_cases h2 : t.corner fi 2 = v
  · exact absurd (h0.trans h1.symm) h01
  · exact absurd (h0.trans h1.symm) h01
  · exact absurd (h0.trans h2.symm) h02
  · simp [List.filter_cons, h0, h1, h2, hex]
  · exact absurd (h1.trans h2.symm) h12
  · simp [List.filter_cons, h0, h1, h2, hex]
  · simp [List.filter_cons, h0, h1, h2, hex]
  · simp [List.filter_cons, h0, h1, h2, hex]

theorem faceAreas_getD_nonneg (m : Mesh) (fi : ℕ) : 0 ≤ (faceAreas m).getD fi 0 := by
  have hmem : ∀ x ∈ faceAreas m, 0 ≤ x := by
    intro x hx
    obtain ⟨f, _, rfl⟩ := List.mem_map.mp hx
    exact Real.sqrt_nonneg _
  have H : ∀ (l : List ℝ) (n : ℕ), (∀ x ∈ l, 0 ≤ x) → 0 ≤ l.getD n 0 := by
    intro l
    induction l with
    | nil => intro n _; simp [List.getD]
    | cons a l ih =>
      intro n hl
      cases n with
      | zero => exact hl a (List.mem_cons_self a l)
      | succ n => exact ih n fun x hx => hl x (List.mem_cons_of_mem _ hx)
  exact H _ _ hmem

theorem list_sum_eq_getD_sum (l : List ℝ) :
    l.sum = ∑ k ∈ Finset.range l.length, l.getD k 0 := by
  induction l with
  | nil => simp
  | cons a l ih =>
    rw [List.sum_cons, List.length_cons, Finset.sum_range_succ']
    simp only [List.getD_cons_succ, List.getD_cons_zero]
    rw [← ih]
    ring

theorem massEntry_eq_spec (m : Mesh) (hf : facesWellFormed m.topo) (v : ℕ) :
    ((vfStar m.topo v).map fun s => (faceAreas m).getD s.1 0).sum / 3 = specMassEntry m v := by
  rw [star_map_sum m.topo v fun x => (faceAreas m).getD x 0]
  unfold specMassEntry
  congr 1
  apply Finset.sum_congr rfl
  intro fi hfi
  rw [incidence_count_distinct m.topo hf fi (Finset.mem_range.mp hfi) v]
  by_cases hx : ∃ j : Fin 3, m.topo.corner fi j = v <;> simp [hx]

theorem count_over_vertices (m : Mesh) (hf : facesWellFormed m.topo) (fi : ℕ)
    (hfi : fi < m.topo.faces.length) :
    ∑ k : Fin m.topo.nv,
      (((List.finRange 3).filter fun j => m.topo.corner fi j = (k : ℕ)).length : ℝ) = 3 := by
  have hstep : ∀ k : Fin m.topo.nv,
      (((List.finRange 3).filter fun j => m.topo.corner fi j = (k : ℕ)).length : ℝ) =
        ∑ j : Fin 3, if m.topo.corner fi j = (k : ℕ) then (1 : ℝ) else 0 := fun k =>
    incidence_count_indicator m.topo fi (k : ℕ)
  rw [Finset.sum_congr rfl fun k _ => hstep k, Finset.sum_comm]
  have hone : ∀ j : Fin 3,
      ∑ k : Fin m.topo.nv, (if m.topo.corner fi j = (k : ℕ) then (1 : ℝ) else 0) = 1 := by
    intro j
    have hlt := corner_lt m.topo hf fi hfi j
    have hcongr : ∀ k : Fin m.topo.nv,
        (if m.topo.corner fi j = (k : ℕ) then (1 : ℝ) else 0) =
          (if (⟨m.topo.corner fi j, hlt⟩ : Fin m.topo.nv) = k then (1 : ℝ) else 0) := by
      intro k
      apply if_congr _ rfl rfl
      rw [Fin.ext_iff]
    rw [Finset.sum_congr rfl fun k _ => hcongr k, Finset.sum_ite_eq]
    simp
  rw [Finset.sum_congr rfl fun j _ => hone j]
  simp

/-- C5: for every mesh with well-formed faces (the validity part of the
vertex-face adjacency), `buildMassMatrix` produces a diagonal matrix whose
entry for each vertex is one third of the summed Heron areas of the faces
incident to that vertex; every such entry is non-negative, and the diagonal
sums to the total mesh surface area. -/
theorem buildMassMatrix_spec (m : Mesh) (hf : facesWellFormed m.topo)
    (i j : Fin m.topo.nv) :
    (buildMassMatrix m).2 i j = (if i = j then specMassEntry m (i : ℕ) else 0) ∧
    0 ≤ specMassEntry m (i : ℕ) ∧
    ∑ k, (buildMassMatrix m).2 k k = totalFaceArea m := by
  have hentry : ∀ a b : Fin m.topo.nv, (buildMassMatrix m).2 a b =
      if a = b then ((vfStar m.topo (a : ℕ)).map fun s => (faceAreas m).getD s.1 0).sum / 3
      else 0 := fun a b => rfl
  refine ⟨?_, ?_, ?_⟩
  · rw [hentry]
    by_cases hij : i = j
    · rw [if_pos hij, if_pos hij, hij, massEntry_eq_spec m hf]
    · rw [if_neg hij, if_neg hij]
  · rw [← massEntry_eq_spec m hf]
    apply div_nonneg _ (by norm_num)
    rw [star_map_sum m.topo _ fun x => (faceAreas m).getD x 0]
    apply Finset.sum_nonneg
    intro fi _
    exact mul_nonneg (by positivity) (faceAreas_getD_nonneg m fi)
  · have hdiag : ∀ k : Fin m.topo.nv, (buildMassMatrix m).2 k k =
        (∑ fi ∈ Finset.range m.topo.faces.length,
          (((List.finRange 3).filter fun j => m.topo.corner fi j = (k : ℕ)).length : ℝ) *
            (faceAreas m).getD fi 0) / 3 := by
      intro k
      rw [hentry, if_pos rfl, star_map_sum m.topo _ fun x => (faceAreas m).getD x 0]
    rw [Finset.sum_congr rfl fun k _ => hdiag k, ← Finset.sum_div, Finset.sum_comm]
    have hface : ∀ fi ∈ Finset.range m.topo.faces.length,
        ∑ k : Fin m.topo.nv,
          (((List.finRange 3).filter fun j => m.topo.corner fi j = (k : ℕ)).length : ℝ) *
            (faceAreas m).getD fi 0 = 3 * (faceAreas m).getD fi 0 := by
      intro fi hfi
      rw [← Finset.sum_mul, count_over_vertices m hf fi (Finset.mem_range.mp hfi)]
    rw [Finset.sum_congr rfl hface, ← Finset.mul_sum]
    unfold totalFaceArea
    rw [list_sum_eq_getD_sum (faceAreas m)]
    have hlen : (faceAreas m).length = m.topo.faces.length := List.length_map _ _
    rw [hlen]
    ring

/-- Witness for the C5 theorem at the doubled right triangle, instantiated at
entry (0, 0). -/
theorem buildMassMatrix_spec_witness :
    facesWellFormed pillowMesh.topo ∧
    (pillowMass 0 0 = (if (0 : Fin 3) = 0 then specMassEntry pillowMesh 0 else 0) ∧
      0 ≤ specMassEntry pillowMesh 0 ∧
      ∑ k : Fin 3, pillowMass k k = totalFaceArea pillowMesh) :=
  ⟨by decide, buildMassMatrix_spec pillowMesh (by decide) ⟨0, by decide⟩ ⟨0, by decide⟩⟩

end HeatMethod
